import Mathlib

/-!
Shallow embedding of `yt_download.py` and proofs about it.

The script's algorithmic parts are modelled as pure Lean functions:
  * the speed-history store (`save_last_speed`, `bin_speed_dynamic`,
    `load_last_speed`),
  * per-stream size estimation and the format-selection table
    (`estimate_size`, `pick_video_format`'s scanning and averaging pass),
  * the merge decision of `merge_video_audio`,
  * the renaming decision of `rename_folder`.

Python machine details are made explicit: `int()` truncates toward zero,
float arithmetic is modelled over `ℚ`, file I/O outcomes are passed in as
explicit values (`ReadResult`), and user input is passed in as a string.
-/

namespace YtDownload

/-- Python `int()` applied to a rational: truncation toward zero. -/
def pyInt (q : ℚ) : Int := if 0 ≤ q then ⌊q⌋ else ⌈q⌉

/-- Characters removed by Python's `str.strip()`, i.e. those with
`str.isspace()` true: the exact Unicode set (29 code points). -/
def pySpace (c : Char) : Bool :=
  c.toNat ∈ [0x9, 0xa, 0xb, 0xc, 0xd, 0x1c, 0x1d, 0x1e, 0x1f, 0x20, 0x85, 0xa0,
    0x1680, 0x2000, 0x2001, 0x2002, 0x2003, 0x2004, 0x2005, 0x2006, 0x2007,
    0x2008, 0x2009, 0x200a, 0x2028, 0x2029, 0x202f, 0x205f, 0x3000]

/-- Python `line.strip()`, on the character list of a line. -/
def pyStripChars (cs : List Char) : List Char :=
  ((cs.dropWhile pySpace).reverse.dropWhile pySpace).reverse

/-- Python's per-character `str.isdigit()` test, modelled exactly on the
Latin-1 range: the ASCII digits `0`–`9` together with the superscript
digits `¹ ² ³` (U+00B9, U+00B2, U+00B3), which have `Numeric_Type=Digit`.
Digit characters beyond Latin-1 (e.g. Arabic-Indic `Nd` digits) are
outside the modelled fragment; theorems quantifying over arbitrary file
content are statements about content within this fragment. -/
def pyIsDigit (c : Char) : Bool :=
  c.isDigit || c.toNat = 0xb2 || c.toNat = 0xb3 || c.toNat = 0xb9

/-- Characters `int()` accepts as a decimal digit, on the same modelled
(Latin-1) fragment: exactly the ASCII digits — `int('²')` raises even
though `'²'.isdigit()` holds. -/
def pyIntDigit (c : Char) : Bool := c.isDigit

/-- Python `s.isdigit()` on a whole (stripped) line: non-empty and all
characters individually digit-like. -/
def isDigits (cs : List Char) : Bool :=
  !cs.isEmpty && cs.all pyIsDigit

/-- Python `int(s)` on a string of decimal digits. -/
def digitsToNat (cs : List Char) : Nat :=
  cs.foldl (fun a c => 10 * a + (c.toNat - 48)) 0

/-- Decimal digit characters of `n`, as produced by Python's `f"{n}"`. -/
def natDigits (n : Nat) : List Char :=
  if n < 10 then [Char.ofNat (48 + n)]
  else natDigits (n / 10) ++ [Char.ofNat (48 + n % 10)]
decreasing_by exact Nat.div_lt_self (by omega) (by omega)

/-- One line of the speed file as written by `save_last_speed`
(`f.write(f"{s}\n")`, the line without its terminating newline). -/
def natToLine (n : Nat) : String := ⟨natDigits n⟩

/-- Source constant `MAX_SPEEDS = 10`. -/
def MAX_SPEEDS : Nat := 10

/-- What Python does with one line of the parsing comprehension: skip it
(stripped text fails `isdigit()`), contribute `int(line.strip())`, or
raise `ValueError` (`isdigit()` true but some character — such as `²` —
is not parsable by `int()`). -/
inductive LineOutcome where
  | skip
  | value (n : Nat)
  | raise
deriving DecidableEq

/-- One line of the parsing comprehension shared by `save_last_speed` and
`load_last_speed`: `int(line.strip()) if line.strip().isdigit()`. -/
def parseSpeedLine (line : String) : LineOutcome :=
  let t := pyStripChars line.data
  if isDigits t then
    if t.all pyIntDigit then .value (digitsToNat t) else .raise
  else .skip

/-- The whole comprehension
`[int(line.strip()) for line in f if line.strip().isdigit()]`, evaluated
left to right: `none` when some line raises `ValueError`, aborting the
comprehension. -/
def parseSpeedsComp : List String → Option (List Nat)
  | [] => some []
  | line :: ls =>
    match parseSpeedLine line with
    | .raise => none
    | .skip => parseSpeedsComp ls
    | .value n => (parseSpeedsComp ls).map (n :: ·)

/-- The samples the comprehension yields, degraded to `[]` when it raised
(in `save_last_speed` the pre-assigned `speeds = []` survives the caught
exception). -/
def parseSpeeds (ls : List String) : List Nat :=
  (parseSpeedsComp ls).getD []

/-- Outcome of opening and reading the speed file: the file is absent,
the read raised an I/O error, or it yielded these lines. -/
inductive ReadResult where
  | absent
  | failure
  | content (ls : List String)

/-- The samples `save_last_speed` starts from: on an absent file or a failed
read the exception is caught (and logged) and `speeds` stays `[]`. -/
def readSpeedsForSaving : ReadResult → List Nat
  | .absent => []
  | .failure => []
  | .content ls => parseSpeeds ls

/-- Source `save_last_speed(speed_bps)`: read-and-parse the old file
(degrading to `[]` on absence or failure), append the new sample, keep the
last `MAX_SPEEDS` (`speeds[-MAX_SPEEDS:]`), write one line per sample.
Returns the lines written, or `none` when the write raised (the error is
logged and swallowed; no exception propagates in either case). -/
def save_last_speed (r : ReadResult) (writeFails : Bool) (speed_bps : Nat) :
    Option (List String) :=
  let speeds := readSpeedsForSaving r ++ [speed_bps]
  let speeds := speeds.drop (speeds.length - MAX_SPEEDS)
  if writeFails then none else some (speeds.map natToLine)

/-- One successful `save_last_speed` call as a transformer of the file's
lines (file present, read and write both succeed). -/
def recordLine (ls : List String) (speed_bps : Nat) : List String :=
  (save_last_speed (.content ls) false speed_bps).getD []

/-- A sequence of `save_last_speed` calls starting from an empty store. -/
def recordFold (xs : List Nat) : List String :=
  xs.foldl recordLine []

/-- The dynamic bin width of `bin_speed_dynamic`:
`max(min_bin, int(avg_speed * 0.05))` with `min_bin = 50_000` (for a
negative argument `int(...)` is negative and the `max` hides the
difference between `Int.toNat` and Python's value). -/
def bin_size (avg_speed : ℚ) : Nat :=
  max 50000 (pyInt (avg_speed * (5 / 100))).toNat

/-- Source `bin_speed_dynamic(speed, avg_speed)`: round `speed` to the
nearest multiple of `bin_size` via
`(speed + bin_size // 2) // bin_size * bin_size`. -/
def bin_speed_dynamic (speed : Nat) (avg_speed : ℚ) : Nat :=
  (speed + bin_size avg_speed / 2) / bin_size avg_speed * bin_size avg_speed

/-- Model of `Counter(l).most_common(1)[0][0]`: `Counter` iterates values in
first-encounter order and `most_common` sorts stably by descending count, so
the result is the value of the first position in `l` whose count in `l` is
maximal. -/
def most_common_1 (l : List Nat) : Option Nat :=
  l.find? (fun x => l.all (fun y => l.count y ≤ l.count x))

/-- Source `avg_speed = sum(speeds) / len(speeds)`. -/
def avg_speed (speeds : List Nat) : ℚ := (speeds.sum : ℚ) / speeds.length

/-- Source `binned_speeds = [bin_speed_dynamic(s, avg_speed) for s in speeds]`. -/
def binned_speeds (speeds : List Nat) : List Nat :=
  speeds.map (fun s => bin_speed_dynamic s (avg_speed speeds))

/-- The computation of `load_last_speed` on the parsed samples: `None` when
empty, else the most common value of `binned_speeds`. -/
def load_from_speeds (speeds : List Nat) : Option Nat :=
  if speeds = [] then none
  else most_common_1 (binned_speeds speeds)

/-- Source `load_last_speed()`: `None` on an absent file, `None` when the
read — or the `int()` of a line inside the comprehension — raises (caught
and logged by the surrounding `try`), else the parsed lines'
representative. -/
def load_last_speed : ReadResult → Option Nat
  | .absent => none
  | .failure => none
  | .content ls =>
    match parseSpeedsComp ls with
    | none => none
    | some speeds => load_from_speeds speeds

/-- The fields of a yt-dlp stream descriptor that the script reads. Sizes
are integers (bytes), `tbr` (kbit/s) and the duration are modelled over
`ℚ` (Python floats). -/
structure FormatInfo where
  vcodec : Option String := none
  height : Option Nat := none
  fps : Option ℚ := none
  format_id : Option String := none
  ext : Option String := none
  filesize : Option Int := none
  filesize_approx : Option Int := none
  tbr : Option ℚ := none

/-- Source `estimate_size(format_info, duration_sec)`: the direct
`filesize` if present, else `filesize_approx` if present, else
`int(duration_sec * tbr * 1000 / 8)` when both `tbr` and `duration_sec`
are truthy (present and non-zero), else `None`. -/
def estimate_size (format_info : FormatInfo) (duration_sec : Option ℚ) : Option ℚ :=
  match format_info.filesize with
  | some s => some (s : ℚ)
  | none =>
    match format_info.filesize_approx with
    | some s => some (s : ℚ)
    | none =>
      match format_info.tbr, duration_sec with
      | some tbr, some d =>
        if tbr ≠ 0 ∧ d ≠ 0 then some ((pyInt (d * tbr * 1000 / 8) : ℚ)) else none
      | _, _ => none

/-- The `f.get('fps') or 0` read: a missing (or zero) fps becomes `0`. -/
def fpsOf (f : FormatInfo) : ℚ := (f.fps).getD 0

/-- The candidate dict stored into `best_formats[h]`. -/
structure Cand where
  format_id : Option String
  fps : ℚ
  ext : String
  filesize : Option ℚ
  vcodec : Option String
deriving DecidableEq

/-- The dict literal of the scanning loop. -/
def mkCand (f : FormatInfo) (est_size : Option ℚ) : Cand :=
  { format_id := f.format_id, fps := fpsOf f, ext := f.ext.getD "",
    filesize := est_size, vcodec := f.vcodec }

/-- The four target resolutions, as numeric heights. The source keys its
dicts by `str(height)` (`'4320'`, `'2160'`, `'1440'`, `'1080'`); `str` is
injective on integer heights, so numeric keys are equivalent. -/
def targetHeights : List Nat := [4320, 2160, 1440, 1080]

/-- State of the scanning loop of `pick_video_format`: the `best_formats`
and `size_estimates` dicts, keyed by target height. -/
structure ScanState where
  best_formats : Nat → Option Cand
  size_estimates : Nat → List ℚ

/-- The initial dicts (`None` candidate and `[]` estimates per target). -/
def initScan : ScanState :=
  { best_formats := fun _ => none, size_estimates := fun _ => [] }

/-- Body of the `for f in formats:` loop of `pick_video_format`: skip
audio-only streams (`vcodec == 'none'`); for a stream whose height is a
target bucket, append its size estimate (when resolvable) to the bucket's
estimates, and make it the bucket's candidate when the bucket is empty or
its fps is strictly larger than the current candidate's. -/
def scanFormat (duration_sec : Option ℚ) (st : ScanState) (f : FormatInfo) : ScanState :=
  if f.vcodec = some "none" then st
  else
    match f.height with
    | none => st
    | some h =>
      if h ∈ targetHeights then
        let est_size := estimate_size f duration_sec
        let sizes' := match est_size with
          | some s => Function.update st.size_estimates h (st.size_estimates h ++ [s])
          | none => st.size_estimates
        let best' := match st.best_formats h with
          | none => Function.update st.best_formats h (some (mkCand f est_size))
          | some bf =>
            if bf.fps < fpsOf f then
              Function.update st.best_formats h (some (mkCand f est_size))
            else st.best_formats
        { best_formats := best', size_estimates := sizes' }
      else st

/-- The whole scanning loop. -/
def scanFormats (formats : List FormatInfo) (duration_sec : Option ℚ) : ScanState :=
  formats.foldl (scanFormat duration_sec) initScan

/-- The streams that the scanning loop counts into target bucket `h`:
video streams (`vcodec != 'none'`) whose height equals `h`. -/
def matchingStreams (formats : List FormatInfo) (h : Nat) : List FormatInfo :=
  formats.filter (fun f => f.vcodec ≠ some "none" ∧ f.height = some h)

/-- The candidate update of the scanning loop, restricted to one bucket:
first match wins on equal fps, a strictly larger fps replaces. -/
def selStep (duration_sec : Option ℚ) (acc : Option Cand) (f : FormatInfo) : Option Cand :=
  match acc with
  | none => some (mkCand f (estimate_size f duration_sec))
  | some bf =>
    if bf.fps < fpsOf f then some (mkCand f (estimate_size f duration_sec)) else some bf

/-- The scanning loop's candidate for one bucket, as a fold over the
bucket's matching streams. -/
def selectBest (duration_sec : Option ℚ) (l : List FormatInfo) : Option Cand :=
  l.foldl (selStep duration_sec) none

/-- The averaging pass after the scan: when a bucket has size estimates
and a candidate, the candidate's `filesize` is replaced by their
arithmetic mean (`sum(...) / len(...)`). `bucketCand` is the bucket's
candidate as the menu and the selection loop then use it. -/
def bucketCand (formats : List FormatInfo) (duration_sec : Option ℚ) (h : Nat) :
    Option Cand :=
  let st := scanFormats formats duration_sec
  match st.best_formats h with
  | none => none
  | some c =>
    match st.size_estimates h with
    | [] => some c
    | es => some { c with filesize := some (es.sum / es.length) }

/-- The specification's 1080p example: three streams with declared sizes
`1000000`, `1100000`, `None`, and one stream whose bitrate and duration
resolve to `900000` (duration 72 s at 100 kbit/s). -/
def exampleFormats : List FormatInfo :=
  [ { height := some 1080, fps := some 30, filesize := some 1000000 },
    { height := some 1080, fps := some 60, filesize := some 1100000 },
    { height := some 1080, fps := some 24 },
    { height := some 1080, fps := some 25, tbr := some 100 } ]

/-- Python float `//` and `%` rendering of a seconds estimate:
`int(sec // 60)` minutes, `int(sec % 60)` seconds, composed into the
`f"{m}m {s}s"` string. -/
def fmtTime (sec : ℚ) : String :=
  let est_min := ⌊sec / 60⌋
  let est_sec_remainder := pyInt (sec - 60 * ⌊sec / 60⌋)
  s!"{est_min}m {est_sec_remainder}s"

/-- The two time strings of one menu row: `"N/A"` twice unless both the
bucket's size estimate and the download speed are truthy
(`if size_bytes and download_speed_bps:`), in which case the slow and fast
estimates are `size_bytes / speed * 1.5` and `size_bytes / speed / 1.5`
seconds (`1.5` is exact in binary floating point). -/
def est_time_strs (size_bytes : Option ℚ) (download_speed_bps : Option ℚ) :
    String × String :=
  match size_bytes, download_speed_bps with
  | some sb, some sp =>
    if sb ≠ 0 ∧ sp ≠ 0 then
      let est_sec_s := sb / sp * (3 / 2)
      let est_sec_f := sb / sp / (3 / 2)
      (fmtTime est_sec_s, fmtTime est_sec_f)
    else ("N/A", "N/A")
  | _, _ => ("N/A", "N/A")

/-- One row of the resolution menu: `not available` when the bucket has no
candidate, else the candidate together with its two time-estimate strings. -/
inductive Row where
  | notAvailable
  | available (c : Cand) (time_s time_f : String)
deriving DecidableEq

/-- The printed menu row for target height `h`. -/
def menuRow (formats : List FormatInfo) (duration_sec : Option ℚ)
    (download_speed_bps : Option ℚ) (h : Nat) : Row :=
  match bucketCand formats duration_sec h with
  | none => .notAvailable
  | some c =>
    let p := est_time_strs c.filesize download_speed_bps
    .available c p.1 p.2

/-- What the merge step decided: remux (stream copy), re-encode with this
video codec, or abort without producing output. -/
inductive MergeAction where
  | remux
  | reencode (video_codec : String)
  | abort
deriving DecidableEq

/-- Observable outcome of `merge_video_audio`: the action, whether the
re-encode confirmation prompt ran, and whether an ffmpeg process writing
`output_path` was launched. -/
structure MergeOutcome where
  action : MergeAction
  prompted : Bool
  wroteOutput : Bool
deriving DecidableEq

/-- Python `choice.strip().lower()` applied to the prompt answer. -/
def pyStripLower (s : String) : String :=
  ⟨(pyStripChars s.data).map Char.toLower⟩

/-- Decision logic of `merge_video_audio`, with its probed inputs passed
explicitly: `nvenc` from `gpu_supports_nvenc_nvdec()`, `codec_name` from
the ffprobe call (`none` when the probe raised), and `answer` what
`input()` would return should the confirmation prompt run. Remux when
nvenc is present and the codec is `h264` or `hevc`; else with nvenc ask,
and any answer whose strip-lower is not `"y"` aborts before any ffmpeg
launch; else re-encode on the CPU without asking. -/
def merge_video_audio (nvenc : Bool) (codec_name : Option String) (answer : String) :
    MergeOutcome :=
  if nvenc ∧ (codec_name = some "h264" ∨ codec_name = some "hevc") then
    { action := .remux, prompted := false, wroteOutput := true }
  else if nvenc then
    if pyStripLower answer ≠ "y" then
      { action := .abort, prompted := true, wroteOutput := false }
    else
      { action := .reencode "h264_nvenc", prompted := true, wroteOutput := true }
  else
    { action := .reencode "libx264", prompted := false, wroteOutput := true }

/-- Python `s.lower()`. -/
def pyLower (s : String) : String := ⟨s.data.map Char.toLower⟩

/-- Python `s.endswith(suffix)`. -/
def pyEndsWith (s suffix : String) : Bool := suffix.data.isSuffixOf s.data

/-- Root part of Python `os.path.splitext(name)` for a bare file name:
cut at the last dot, unless every character before that dot is a dot
(leading dots do not start an extension). -/
def splitextRoot (name : String) : String :=
  let cs := name.data
  if '.' ∈ cs then
    let i := cs.length - 1 - cs.reverse.indexOf '.'
    if (cs.take i).any (fun c => c ≠ '.') then ⟨cs.take i⟩ else name
  else name

/-- Outcome of `rename_folder`: nothing to rename, collision reported and
skipped, or the directory renamed to the base name. -/
inductive RenameResult where
  | noOutput
  | skippedExisting (base_name : String)
  | renamed (base_name : String)
deriving DecidableEq

/-- The candidate list of `rename_folder`: the `.mp4` files of the target
directory, or — Python `or` on lists — the `.wav` files when there is no
mp4. -/
def renameCandidates (files : List String) : List String :=
  let mp4s := files.filter (fun f => pyEndsWith (pyLower f) ".mp4")
  let wavs := files.filter (fun f => pyEndsWith (pyLower f) ".wav")
  if mp4s.isEmpty then wavs else mp4s

/-- Source `rename_folder(target_dir)`, over the listed `files` of the
target directory and the `os.path.exists` predicate of the parent: with
no candidate it reports and returns; when a path named like the first
candidate's base name exists it reports the collision and returns;
otherwise it renames the directory. -/
def rename_folder (files : List String) (existsPath : String → Bool) : RenameResult :=
  match renameCandidates files with
  | [] => .noOutput
  | c :: _ =>
    let base_name := splitextRoot c
    if existsPath base_name then .skippedExisting base_name
    else .renamed base_name

/-- Directory-level effect of `rename_folder` on the parent directory's
entries: the timestamped `target` entry is replaced only in the `renamed`
case (`os.rename`); in every other case the listing is unchanged. -/
def renameEffect (target : String) (files : List String) (existsPath : String → Bool)
    (dirs : List String) : List String :=
  match rename_folder files existsPath with
  | .renamed base_name => dirs.map (fun d => if d = target then base_name else d)
  | _ => dirs

/-! ## Theorems -/

/-- C4: for every stream descriptor and duration, `estimate_size` uses
exactly the fallback order: direct `filesize` if present, else
`filesize_approx` if present, else `int(duration · tbr · 1000 / 8)` when
both `tbr` and the duration are available (truthy), else `none`. -/
theorem estimate_size_fallback_order (f : FormatInfo) (d : Option ℚ) :
    (∀ s, f.filesize = some s → estimate_size f d = some (s : ℚ)) ∧
    (f.filesize = none → ∀ s, f.filesize_approx = some s →
      estimate_size f d = some (s : ℚ)) ∧
    (f.filesize = none → f.filesize_approx = none →
      ∀ t dv, f.tbr = some t → d = some dv → t ≠ 0 → dv ≠ 0 →
        estimate_size f d = some ((pyInt (dv * t * 1000 / 8) : ℚ))) ∧
    (f.filesize = none → f.filesize_approx = none →
      (f.tbr = none ∨ f.tbr = some 0 ∨ d = none ∨ d = some 0) →
      estimate_size f d = none) := by
  refine ⟨?_, ?_, ?_, ?_⟩
  · intro s hs; simp [estimate_size, hs]
  · intro h1 s hs; simp [estimate_size, h1, hs]
  · intro h1 h2 t dv ht hd hnt hnd
    simp [estimate_size, h1, h2, ht, hd, hnt, hnd]
  · intro h1 h2 h3
    cases ht : f.tbr <;> cases hd : d <;> rcases h3 with h | h | h | h <;>
      simp_all [estimate_size]

/-- Witness for `estimate_size_fallback_order` at concrete descriptors,
one per branch of the fallback order. -/
theorem estimate_size_fallback_order_witness :
    estimate_size { filesize := some 1000, filesize_approx := some 7 } (some 60) =
      some ((1000 : Int) : ℚ) ∧
    estimate_size { filesize_approx := some 500 } (some 60) = some ((500 : Int) : ℚ) ∧
    estimate_size { tbr := some 100 } (some 72) =
      some ((pyInt (72 * 100 * 1000 / 8) : ℚ)) ∧
    estimate_size { tbr := some 0 } (some 60) = none :=
  ⟨(estimate_size_fallback_order _ _).1 1000 rfl,
   (estimate_size_fallback_order _ _).2.1 rfl 500 rfl,
   (estimate_size_fallback_order _ _).2.2.1 rfl rfl 100 72 rfl rfl
     (by norm_num) (by norm_num),
   (estimate_size_fallback_order _ _).2.2.2 rfl rfl (Or.inr (Or.inl rfl))⟩

/-- C5: with hardware (nvenc) encoding detected and an allow-listed probed
codec (`h264` or `hevc`), the merge remuxes (stream copy) and never shows
the re-encode confirmation prompt. -/
theorem merge_remux_when_gpu_friendly (codec_name : Option String) (answer : String)
    (h : codec_name = some "h264" ∨ codec_name = some "hevc") :
    merge_video_audio true codec_name answer =
      { action := .remux, prompted := false, wroteOutput := true } := by
  unfold merge_video_audio
  rw [if_pos ⟨rfl, h⟩]

/-- Witness for `merge_remux_when_gpu_friendly` with codec `h264`. -/
theorem merge_remux_when_gpu_friendly_witness :
    merge_video_audio true (some "h264") "whatever" =
      { action := .remux, prompted := false, wroteOutput := true } :=
  merge_remux_when_gpu_friendly (some "h264") "whatever" (Or.inl rfl)

/-- C6: with hardware encoding but a non-allow-listed codec the user is
prompted, and any answer other than confirmation (`strip().lower() == 'y'`)
aborts the merge: no transcode launched, no output written; a confirming
answer re-encodes on the GPU encoder; with no hardware encoding the merge
re-encodes on the software encoder without prompting. -/
theorem merge_reencode_or_abort (nvenc : Bool) (codec_name : Option String)
    (answer : String) :
    (nvenc = true → ¬(codec_name = some "h264" ∨ codec_name = some "hevc") →
      pyStripLower answer ≠ "y" →
      merge_video_audio nvenc codec_name answer =
        { action := .abort, prompted := true, wroteOutput := false }) ∧
    (nvenc = true → ¬(codec_name = some "h264" ∨ codec_name = some "hevc") →
      pyStripLower answer = "y" →
      merge_video_audio nvenc codec_name answer =
        { action := .reencode "h264_nvenc", prompted := true, wroteOutput := true }) ∧
    (nvenc = false →
      merge_video_audio nvenc codec_name answer =
        { action := .reencode "libx264", prompted := false, wroteOutput := true }) := by
  refine ⟨?_, ?_, ?_⟩
  · intro hn hc hy; subst hn
    unfold merge_video_audio
    rw [if_neg (fun hh => hc hh.2), if_pos rfl, if_pos hy]
  · intro hn hc hy; subst hn
    unfold merge_video_audio
    rw [if_neg (fun hh => hc hh.2), if_pos rfl, if_neg (by simp [hy])]
  · intro hn; subst hn
    unfold merge_video_audio
    rw [if_neg (fun hh => by simpa using hh.1), if_neg (by simp)]

/-- Witness for `merge_reencode_or_abort`: a declined prompt aborts, a
confirmation re-encodes on the GPU, and without nvenc the CPU encoder is
used with no prompt. -/
theorem merge_reencode_or_abort_witness :
    merge_video_audio true (some "vp9") " n " =
      { action := .abort, prompted := true, wroteOutput := false } ∧
    merge_video_audio true (some "vp9") " Y " =
      { action := .reencode "h264_nvenc", prompted := true, wroteOutput := true } ∧
    merge_video_audio false (some "vp9") "n" =
      { action := .reencode "libx264", prompted := false, wroteOutput := true } :=
  ⟨(merge_reencode_or_abort true (some "vp9") " n ").1 rfl (by simp) (by decide),
   (merge_reencode_or_abort true (some "vp9") " Y ").2.1 rfl (by simp) (by decide),
   (merge_reencode_or_abort false (some "vp9") "n").2.2 rfl⟩

/-- C8: when a path named like the primary candidate's base name already
exists, `rename_folder` reports the collision and skips: nothing is
renamed and the parent directory listing (with the timestamped directory)
is unchanged. -/
theorem rename_skips_existing_dir (files : List String) (existsPath : String → Bool)
    (c : String) (rest : List String) (target : String) (dirs : List String)
    (hc : renameCandidates files = c :: rest)
    (hex : existsPath (splitextRoot c) = true) :
    rename_folder files existsPath = .skippedExisting (splitextRoot c) ∧
    renameEffect target files existsPath dirs = dirs := by
  have h1 : rename_folder files existsPath = .skippedExisting (splitextRoot c) := by
    unfold rename_folder
    rw [hc]
    simp [hex]
  refine ⟨h1, ?_⟩
  unfold renameEffect
  rw [h1]

/-- Witness for `rename_skips_existing_dir` with one mp4 output whose base
name collides. -/
theorem rename_skips_existing_dir_witness :
    rename_folder ["My Video.mp4"] (fun _ => true) =
      .skippedExisting (splitextRoot "My Video.mp4") ∧
    renameEffect "2025-01-01_00-00-00" ["My Video.mp4"] (fun _ => true)
      ["2025-01-01_00-00-00"] = ["2025-01-01_00-00-00"] :=
  rename_skips_existing_dir ["My Video.mp4"] (fun _ => true) "My Video.mp4" []
    "2025-01-01_00-00-00" ["2025-01-01_00-00-00"] (by rfl) rfl

/-- C9: speed-store failures never propagate. `load_last_speed` returns
`none` when the file is absent, the read raised, or the parsed content is
empty; `save_last_speed` degrades a failed read to an empty history (the
sample is still written) and a failed write to a logged no-op. -/
theorem speed_store_failures_degrade :
    (load_last_speed .absent = none) ∧
    (load_last_speed .failure = none) ∧
    (∀ ls, parseSpeeds ls = [] → load_last_speed (.content ls) = none) ∧
    (∀ x, save_last_speed .failure false x = some [natToLine x]) ∧
    (∀ r x, save_last_speed r true x = none) := by
  refine ⟨rfl, rfl, ?_, ?_, ?_⟩
  · intro ls h
    simp only [load_last_speed]
    cases hp : parseSpeedsComp ls with
    | none => rfl
    | some speeds =>
      have hsp : speeds = [] := by simpa [parseSpeeds, hp] using h
      subst hsp
      simp [load_from_speeds]
  · intro x; rfl
  · intro r x; simp [save_last_speed]

/-- Witness for `speed_store_failures_degrade`: a file holding only the
unparsable line `"abc"` loads as `none`; a read failure still records the
new sample; a write failure writes nothing. -/
theorem speed_store_failures_degrade_witness :
    load_last_speed (.content ["abc"]) = none ∧
    save_last_speed .failure false 5 = some [natToLine 5] ∧
    save_last_speed .absent true 5 = none :=
  ⟨speed_store_failures_degrade.2.2.1 ["abc"] rfl,
   speed_store_failures_degrade.2.2.2.1 5,
   speed_store_failures_degrade.2.2.2.2 .absent 5⟩

/-- C7: when no representative speed is known every menu row shows `"N/A"`
for both time estimates, never a numeric value; when both a size estimate
and a speed are known the two displayed estimates are
`size/speed * 1.5` and `size/speed / 1.5` seconds. -/
theorem time_estimate_display :
    (∀ formats duration_sec h,
        menuRow formats duration_sec none h = .notAvailable ∨
        ∃ c, menuRow formats duration_sec none h = .available c "N/A" "N/A") ∧
    (∀ sb sp : ℚ,
        est_time_strs (some sb) (some sp) =
          if sb ≠ 0 ∧ sp ≠ 0 then
            (fmtTime (sb / sp * (3 / 2)), fmtTime (sb / sp / (3 / 2)))
          else ("N/A", "N/A")) := by
  constructor
  · intro formats duration_sec h
    unfold menuRow
    cases hb : bucketCand formats duration_sec h with
    | none => exact Or.inl rfl
    | some c' =>
      refine Or.inr ⟨c', ?_⟩
      cases c'.filesize <;> simp [est_time_strs]
  · intro sb sp
    simp only [est_time_strs]

/-- Stripping only removes characters: membership is preserved. -/
theorem mem_pyStripChars (cs : List Char) (c : Char) (h : c ∈ pyStripChars cs) :
    c ∈ cs := by
  unfold pyStripChars at h
  have h1 := List.mem_reverse.mp h
  have h2 := (List.dropWhile_sublist pySpace).mem h1
  have h3 := List.mem_reverse.mp h2
  exact (List.dropWhile_sublist pySpace).mem h3

/-- C10 (amended): a line whose stripped text fails `isdigit()` is
silently dropped in place; when no line raises, the comprehension
succeeds and yields exactly the parsable lines' values in order; an
all-ASCII line can never raise, so the original reading holds for ASCII
content; a parsed value always comes from an `isdigit()`-true line and is
that line's decimal value; but a line whose stripped text passes
`isdigit()` while containing a character `int()` cannot parse (such as
`²`) aborts the whole comprehension, and `load_last_speed` catches the
error and returns `none` rather than raising. -/
theorem load_parses_only_digit_lines_amended :
    (∀ ls1 ls2 line, parseSpeedLine line = .skip →
        parseSpeedsComp (ls1 ++ line :: ls2) = parseSpeedsComp (ls1 ++ ls2)) ∧
    (∀ ls, (∀ line ∈ ls, parseSpeedLine line ≠ .raise) →
        parseSpeedsComp ls = some (ls.filterMap (fun line =>
          match parseSpeedLine line with
          | .value n => some n
          | _ => none))) ∧
    (∀ line, (∀ c ∈ line.data, c.toNat < 128) → parseSpeedLine line ≠ .raise) ∧
    (∀ line n, parseSpeedLine line = .value n →
        isDigits (pyStripChars line.data) = true ∧
        n = digitsToNat (pyStripChars line.data)) ∧
    (∀ ls1 ls2 line, parseSpeedLine line = .raise →
        parseSpeedsComp (ls1 ++ line :: ls2) = none ∧
        load_last_speed (.content (ls1 ++ line :: ls2)) = none) := by
  refine ⟨?_, ?_, ?_, ?_, ?_⟩
  · intro ls1 ls2 line h
    induction ls1 with
    | nil => simp [parseSpeedsComp, h]
    | cons a t ih =>
      simp only [List.cons_append, parseSpeedsComp]
      cases ha : parseSpeedLine a <;> simp [ha, ih]
  · intro ls h
    induction ls with
    | nil => rfl
    | cons a t ih =>
      have ha : parseSpeedLine a ≠ .raise := h a (List.mem_cons_self a t)
      have ht := ih (fun line hl => h line (List.mem_cons_of_mem a hl))
      cases hcase : parseSpeedLine a with
      | raise => exact absurd hcase ha
      | skip => simp [parseSpeedsComp, List.filterMap_cons, hcase, ht]
      | value n => simp [parseSpeedsComp, List.filterMap_cons, hcase, ht]
  · intro line hascii hcon
    unfold parseSpeedLine at hcon
    by_cases hd : isDigits (pyStripChars line.data) = true
    · rw [if_pos hd] at hcon
      by_cases hall : (pyStripChars line.data).all pyIntDigit = true
      · rw [if_pos hall] at hcon
        cases hcon
      · rw [if_neg hall] at hcon
        rw [List.all_eq_true] at hall
        push_neg at hall
        obtain ⟨c, hc, hcd⟩ := hall
        have hdig : pyIsDigit c = true := by
          have := (Bool.and_eq_true _ _).mp hd
          exact List.all_eq_true.mp this.2 c hc
        have hint : pyIntDigit c = false := by
          cases hx : pyIntDigit c with
          | false => rfl
          | true => exact absurd hx hcd
        have hbig : 128 ≤ c.toNat := by
          have h1 : c.isDigit = false := by simpa [pyIntDigit] using hint
          have h2 : (c.toNat = 0xb2 ∨ c.toNat = 0xb3) ∨ c.toNat = 0xb9 := by
            simpa [pyIsDigit, h1, Bool.false_or, Bool.or_eq_true,
              decide_eq_true_eq] using hdig
          rcases h2 with (h | h) | h <;> omega
        have hlt := hascii c (mem_pyStripChars _ _ hc)
        omega
    · rw [if_neg hd] at hcon
      cases hcon
  · intro line n hv
    unfold parseSpeedLine at hv
    by_cases hd : isDigits (pyStripChars line.data) = true
    · rw [if_pos hd] at hv
      by_cases hall : (pyStripChars line.data).all pyIntDigit = true
      · rw [if_pos hall] at hv
        refine ⟨hd, ?_⟩
        cases hv
        rfl
      · rw [if_neg hall] at hv
        cases hv
    · rw [if_neg hd] at hv
      cases hv
  · intro ls1 ls2 line h
    have habort : parseSpeedsComp (ls1 ++ line :: ls2) = none := by
      induction ls1 with
      | nil => simp [parseSpeedsComp, h]
      | cons a t ih =>
        simp only [List.cons_append, parseSpeedsComp]
        cases ha : parseSpeedLine a <;> simp [ha, ih]
    exact ⟨habort, by simp [load_last_speed, habort]⟩

/-- Witness for `load_parses_only_digit_lines_amended`: a negative line
drops in place, an all-safe file parses to its digit lines, an ASCII line
cannot raise, a good line's value is its decimal reading, and a `²` line
aborts the load to `none`. -/
theorem load_parses_only_digit_lines_amended_witness :
    parseSpeedsComp (["10"] ++ " -5 " :: ["20"]) = parseSpeedsComp (["10"] ++ ["20"]) ∧
    parseSpeedsComp ["10", "x", "20"] = some (["10", "x", "20"].filterMap (fun line =>
      match parseSpeedLine line with
      | .value n => some n
      | _ => none)) ∧
    parseSpeedLine "abc" ≠ .raise ∧
    (isDigits (pyStripChars " 15 ".data) = true ∧
      15 = digitsToNat (pyStripChars " 15 ".data)) ∧
    (parseSpeedsComp (["10"] ++ "²" :: ["20"]) = none ∧
      load_last_speed (.content (["10"] ++ "²" :: ["20"])) = none) :=
  ⟨load_parses_only_digit_lines_amended.1 ["10"] ["20"] " -5 " (by decide),
   load_parses_only_digit_lines_amended.2.1 ["10", "x", "20"] (by decide),
   load_parses_only_digit_lines_amended.2.2.1 "abc" (by decide),
   load_parses_only_digit_lines_amended.2.2.2.1 " 15 " 15 (by decide),
   load_parses_only_digit_lines_amended.2.2.2.2 ["10"] ["20"] "²" (by decide)⟩

/-- C10 (counterexample): at file content `["²", "100000"]` the line `²`
is not silently ignored — `'²'.isdigit()` is true but `int('²')` raises,
aborting the whole comprehension — so loading returns `none` and the
well-formed line `100000`, which alone loads as `100000`, never
contributes. This refutes the claim's in-place-ignore reading over every
possible file content. -/
theorem load_parses_only_digit_lines_counterexample :
    parseSpeedLine "²" = .raise ∧
    parseSpeedsComp ["²", "100000"] = none ∧
    load_last_speed (.content ["²", "100000"]) = none ∧
    load_last_speed (.content ["100000"]) = some 100000 := by
  refine ⟨by decide, by decide, by decide, ?_⟩
  have hcomp : parseSpeedsComp ["100000"] = some [100000] := by decide
  have havg : avg_speed [100000] = 100000 := by
    simp [avg_speed]
  have hbs : bin_size (100000 : ℚ) = 50000 := by
    have h5 : pyInt ((100000 : ℚ) * (5 / 100)) = 5000 := by
      have he : (100000 : ℚ) * (5 / 100) = ((5000 : Int) : ℚ) := by norm_num
      rw [pyInt, he]
      rw [if_pos (by positivity)]
      exact Int.floor_intCast 5000
    simp [bin_size, h5]
  have hbin : bin_speed_dynamic 100000 (100000 : ℚ) = 100000 := by
    rw [bin_speed_dynamic, hbs]
  have hbinned : binned_speeds [100000] = [100000] := by
    simp only [binned_speeds, List.map_cons, List.map_nil, havg, hbin]
  have hload : load_from_speeds [100000] = some 100000 := by
    rw [load_from_speeds, if_neg (by simp), hbinned]
    decide
  simp [load_last_speed, hcomp, hload]

/-- A non-empty list has an element maximizing any `Nat`-valued function. -/
theorem exists_argmax {α : Type} (g : α → Nat) (l : List α) (hl : l ≠ []) :
    ∃ x ∈ l, ∀ y ∈ l, g y ≤ g x := by
  induction l with
  | nil => exact absurd rfl hl
  | cons a t ih =>
    cases t with
    | nil => exact ⟨a, by simp, by simp⟩
    | cons b u =>
      obtain ⟨m, hm, hmax⟩ := ih (by simp)
      rcases le_total (g a) (g m) with hle | hle
      · refine ⟨m, List.mem_cons_of_mem a hm, ?_⟩
        intro y hy
        rcases List.mem_cons.mp hy with rfl | hy
        · exact hle
        · exact hmax y hy
      · refine ⟨a, List.mem_cons_self a _, ?_⟩
        intro y hy
        rcases List.mem_cons.mp hy with rfl | hy
        · exact le_refl _
        · exact le_trans (hmax y hy) hle

/-- A successful `find?` splits its list at the hit: everything before the
returned element fails the predicate. -/
theorem find?_decomp {α : Type} (p : α → Bool) (l : List α) (v : α)
    (h : l.find? p = some v) :
    p v = true ∧ ∃ l1 l2, l = l1 ++ v :: l2 ∧ ∀ u ∈ l1, p u = false := by
  induction l with
  | nil => cases h
  | cons a t ih =>
    by_cases hp : p a = true
    · rw [List.find?_cons_of_pos _ hp] at h
      obtain rfl := Option.some_inj.mp h
      exact ⟨hp, [], t, rfl, by simp⟩
    · rw [List.find?_cons_of_neg _ (by simpa using hp)] at h
      obtain ⟨hpv, l1, l2, heq, hfail⟩ := ih h
      refine ⟨hpv, a :: l1, l2, by rw [heq, List.cons_append], ?_⟩
      intro u hu
      rcases List.mem_cons.mp hu with rfl | hu
      · simpa using hp
      · exact hfail u hu

/-- An element left of the first `find?` hit and failing-free positions:
the hit's first index is least among elements outside the prefix. -/
theorem indexOf_le_of_split {α : Type} [DecidableEq α] (l1 l2 : List α) (v u : α)
    (hv : v ∉ l1) (hu : u ∉ l1) :
    (l1 ++ v :: l2).indexOf v ≤ (l1 ++ v :: l2).indexOf u := by
  rw [List.indexOf_append_of_not_mem hv, List.indexOf_append_of_not_mem hu,
    List.indexOf_cons_self]
  omega

/-- The bin width is positive. -/
theorem bin_size_pos (a : ℚ) : 0 < bin_size a :=
  lt_of_lt_of_le (by norm_num) (le_max_left _ _)

/-- Rounding property of `bin_speed_dynamic` to a `bin_size` multiple: the
result is a multiple, and it differs from the sample by at most half a
bin (`(s + b//2) // b * b`). -/
theorem bin_speed_dynamic_nearest (s : Nat) (a : ℚ) :
    (∃ k, bin_speed_dynamic s a = k * bin_size a) ∧
    2 * ((bin_speed_dynamic s a : Int) - (s : Int)) ≤ (bin_size a : Int) ∧
    -(bin_size a : Int) ≤ 2 * ((bin_speed_dynamic s a : Int) - (s : Int)) := by
  refine ⟨⟨(s + bin_size a / 2) / bin_size a, rfl⟩, ?_, ?_⟩ <;>
  · have hb : 0 < bin_size a := bin_size_pos a
    unfold bin_speed_dynamic
    set b := bin_size a with hbdef
    set q := (s + b / 2) / b with hqdef
    set r := (s + b / 2) % b with hrdef
    have e1 : b * q + r = s + b / 2 := Nat.div_add_mod _ _
    have e1' : (b : Int) * q + r = (s : Int) + ((b / 2 : Nat) : Int) := by
      exact_mod_cast e1
    have e2' : (r : Int) < (b : Int) := by exact_mod_cast Nat.mod_lt _ hb
    have e3 : 2 * (b / 2) ≤ b ∧ b ≤ 2 * (b / 2) + 1 := by omega
    have e3' : 2 * ((b / 2 : Nat) : Int) ≤ (b : Int) := by exact_mod_cast e3.1
    have e3'' : (b : Int) ≤ 2 * ((b / 2 : Nat) : Int) + 1 := by exact_mod_cast e3.2
    have e4 : (0 : Int) ≤ (r : Int) := by positivity
    push_cast
    push_cast at e1'
    linarith [e1', e2', e3', e3'', e4]

/-- C2: for every non-empty sample list, the representative speed exists
and is the most frequent value of `binned_speeds` (each sample rounded by
`bin_speed_dynamic` to the nearest multiple of the `max(50000, 0.05·mean)`
bin width — the multiple/nearest facts are the last two conjuncts), with
ties broken in favor of the first-encountered binned value. -/
theorem load_from_speeds_most_frequent (speeds : List Nat) (hne : speeds ≠ []) :
    ∃ v, load_from_speeds speeds = some v ∧
      v ∈ binned_speeds speeds ∧
      (∀ u ∈ binned_speeds speeds,
        (binned_speeds speeds).count u ≤ (binned_speeds speeds).count v) ∧
      (∀ u ∈ binned_speeds speeds,
        (binned_speeds speeds).count u = (binned_speeds speeds).count v →
          (binned_speeds speeds).indexOf v ≤ (binned_speeds speeds).indexOf u) ∧
      (∀ s : Nat, ∃ k,
        bin_speed_dynamic s (avg_speed speeds) = k * bin_size (avg_speed speeds)) ∧
      (∀ s : Nat,
        2 * ((bin_speed_dynamic s (avg_speed speeds) : Int) - (s : Int)) ≤
            (bin_size (avg_speed speeds) : Int) ∧
        -(bin_size (avg_speed speeds) : Int) ≤
            2 * ((bin_speed_dynamic s (avg_speed speeds) : Int) - (s : Int))) := by
  have hbinne : binned_speeds speeds ≠ [] := by
    simpa [binned_speeds] using hne
  obtain ⟨m, hm, hmax⟩ :=
    exists_argmax ((binned_speeds speeds).count ·) (binned_speeds speeds) hbinne
  have hex : ∃ x, x ∈ binned_speeds speeds ∧
      (binned_speeds speeds).all
        (fun y => (binned_speeds speeds).count y ≤ (binned_speeds speeds).count x) = true := by
    refine ⟨m, hm, ?_⟩
    simp only [List.all_eq_true, decide_eq_true_eq]
    exact hmax
  have hsome : ((binned_speeds speeds).find?
      (fun x => (binned_speeds speeds).all
        (fun y => (binned_speeds speeds).count y ≤ (binned_speeds speeds).count x))).isSome :=
    List.find?_isSome.mpr hex
  obtain ⟨v, hv⟩ := Option.isSome_iff_exists.mp hsome
  obtain ⟨hpv, l1, l2, heq, hfail⟩ := find?_decomp _ _ _ hv
  have hmaxv : ∀ u ∈ binned_speeds speeds,
      (binned_speeds speeds).count u ≤ (binned_speeds speeds).count v := by
    intro u hu
    have := List.all_eq_true.mp hpv u hu
    simpa using this
  refine ⟨v, ?_, ?_, hmaxv, ?_, ?_, ?_⟩
  · simp only [load_from_speeds, most_common_1, if_neg hne]
    exact hv
  · rw [heq]
    exact List.mem_append_right _ (List.mem_cons_self _ _)
  · intro u hu hcnt
    have hpu : (binned_speeds speeds).all
        (fun y => (binned_speeds speeds).count y ≤ (binned_speeds speeds).count u) = true := by
      simp only [List.all_eq_true, decide_eq_true_eq]
      intro y hy
      rw [hcnt]
      exact hmaxv y hy
    have hvnot : v ∉ l1 := by
      intro hmem
      have := hfail v hmem
      rw [hpv] at this
      cases this
    have hunot : u ∉ l1 := by
      intro hmem
      have := hfail u hmem
      rw [hpu] at this
      cases this
    rw [heq]
    exact indexOf_le_of_split l1 l2 v u hvnot hunot
  · exact fun s => (bin_speed_dynamic_nearest s (avg_speed speeds)).1
  · exact fun s => ⟨(bin_speed_dynamic_nearest s (avg_speed speeds)).2.1,
      (bin_speed_dynamic_nearest s (avg_speed speeds)).2.2⟩

/-- Witness for `load_from_speeds_most_frequent` at the specification's
example sample list. -/
theorem load_from_speeds_most_frequent_witness :
    ∃ v, load_from_speeds [100000, 102000, 98000, 500000] = some v ∧
      v ∈ binned_speeds [100000, 102000, 98000, 500000] ∧
      (∀ u ∈ binned_speeds [100000, 102000, 98000, 500000],
        (binned_speeds [100000, 102000, 98000, 500000]).count u ≤
          (binned_speeds [100000, 102000, 98000, 500000]).count v) ∧
      (∀ u ∈ binned_speeds [100000, 102000, 98000, 500000],
        (binned_speeds [100000, 102000, 98000, 500000]).count u =
            (binned_speeds [100000, 102000, 98000, 500000]).count v →
          (binned_speeds [100000, 102000, 98000, 500000]).indexOf v ≤
            (binned_speeds [100000, 102000, 98000, 500000]).indexOf u) ∧
      (∀ s : Nat, ∃ k,
        bin_speed_dynamic s (avg_speed [100000, 102000, 98000, 500000]) =
          k * bin_size (avg_speed [100000, 102000, 98000, 500000])) ∧
      (∀ s : Nat,
        2 * ((bin_speed_dynamic s (avg_speed [100000, 102000, 98000, 500000]) : Int) -
            (s : Int)) ≤ (bin_size (avg_speed [100000, 102000, 98000, 500000]) : Int) ∧
        -(bin_size (avg_speed [100000, 102000, 98000, 500000]) : Int) ≤
            2 * ((bin_speed_dynamic s (avg_speed [100000, 102000, 98000, 500000]) : Int) -
              (s : Int))) :=
  load_from_speeds_most_frequent [100000, 102000, 98000, 500000] (by simp)

/-- Decimal digit characters: code point, digitness, non-whitespace. -/
theorem digitChar_facts (d : Nat) (h : d < 10) :
    (Char.ofNat (48 + d)).toNat = 48 + d ∧ (Char.ofNat (48 + d)).isDigit = true ∧
    pySpace (Char.ofNat (48 + d)) = false := by
  interval_cases d <;> exact ⟨by decide, by decide, by decide⟩

/-- The digit list `natDigits n` is non-empty and consists of digit
characters only. -/
theorem natDigits_facts (n : Nat) :
    natDigits n ≠ [] ∧ ∀ c ∈ natDigits n, c.isDigit = true ∧ pySpace c = false := by
  induction n using Nat.strong_induction_on with
  | _ n ih =>
    by_cases h : n < 10
    · rw [natDigits, if_pos h]
      refine ⟨by simp, ?_⟩
      intro c hc
      rw [List.mem_singleton] at hc
      subst hc
      exact ⟨(digitChar_facts n h).2.1, (digitChar_facts n h).2.2⟩
    · rw [natDigits, if_neg h]
      refine ⟨by simp, ?_⟩
      intro c hc
      rcases List.mem_append.mp hc with hc | hc
      · exact (ih (n / 10) (Nat.div_lt_self (by omega) (by omega))).2 c hc
      · rw [List.mem_singleton] at hc
        subst hc
        have hm : n % 10 < 10 := Nat.mod_lt _ (by omega)
        exact ⟨(digitChar_facts _ hm).2.1, (digitChar_facts _ hm).2.2⟩

/-- Parsing inverts printing: `int(f"{n}")` is `n`. -/
theorem digitsToNat_natDigits (n : Nat) : digitsToNat (natDigits n) = n := by
  induction n using Nat.strong_induction_on with
  | _ n ih =>
    by_cases h : n < 10
    · rw [natDigits, if_pos h]
      simp only [digitsToNat, List.foldl_cons, List.foldl_nil]
      rw [(digitChar_facts n h).1]
      omega
    · rw [natDigits, if_neg h]
      unfold digitsToNat
      rw [List.foldl_append]
      have hm : n % 10 < 10 := Nat.mod_lt _ (by omega)
      have h1 := ih (n / 10) (Nat.div_lt_self (by omega) (by omega))
      unfold digitsToNat at h1
      simp only [List.foldl_cons, List.foldl_nil]
      rw [h1, (digitChar_facts _ hm).1]
      omega

/-- Dropping while a predicate holds is the identity when no element
satisfies it. -/
theorem dropWhile_eq_self_of_not {α : Type} (p : α → Bool) (l : List α)
    (h : ∀ c ∈ l, p c = false) : l.dropWhile p = l := by
  cases l with
  | nil => rfl
  | cons a t =>
    exact List.dropWhile_cons_of_neg (by simp [h a (List.mem_cons_self a t)])

/-- Stripping does nothing to a whitespace-free line. -/
theorem pyStripChars_eq_self (cs : List Char) (h : ∀ c ∈ cs, pySpace c = false) :
    pyStripChars cs = cs := by
  unfold pyStripChars
  rw [dropWhile_eq_self_of_not _ _ h]
  rw [dropWhile_eq_self_of_not _ _ (fun c hc => h c (List.mem_reverse.mp hc))]
  exact List.reverse_reverse cs

/-- A written sample line parses back to the sample. -/
theorem parseSpeedLine_natToLine (x : Nat) : parseSpeedLine (natToLine x) = .value x := by
  have hstrip : pyStripChars (natToLine x).data = natDigits x :=
    pyStripChars_eq_self _ (fun c hc => ((natDigits_facts x).2 c hc).2)
  have hdig : isDigits (natDigits x) = true := by
    unfold isDigits
    rw [Bool.and_eq_true, List.all_eq_true]
    refine ⟨?_, ?_⟩
    · simpa using (natDigits_facts x).1
    · intro c hc
      simp [pyIsDigit, ((natDigits_facts x).2 c hc).1]
  have hint : (natDigits x).all pyIntDigit = true := by
    rw [List.all_eq_true]
    intro c hc
    simpa [pyIntDigit] using ((natDigits_facts x).2 c hc).1
  show (if isDigits (pyStripChars (natToLine x).data) then
      if (pyStripChars (natToLine x).data).all pyIntDigit then
        LineOutcome.value (digitsToNat (pyStripChars (natToLine x).data))
      else .raise
    else .skip) = .value x
  rw [hstrip, hdig, if_pos rfl, hint, if_pos rfl, digitsToNat_natDigits]

/-- Serialization round-trips through the whole comprehension. -/
theorem parseSpeedsComp_map_natToLine (l : List Nat) :
    parseSpeedsComp (l.map natToLine) = some l := by
  induction l with
  | nil => rfl
  | cons x t ih =>
    simp only [List.map_cons, parseSpeedsComp, parseSpeedLine_natToLine, ih,
      Option.map_some']

/-- Serialization round-trips through the degraded parser too. -/
theorem parseSpeeds_map_natToLine (l : List Nat) :
    parseSpeeds (l.map natToLine) = l := by
  rw [parseSpeeds, parseSpeedsComp_map_natToLine]
  rfl

/-- One record call keeps the last `n` of the appended history
(`speeds[-n:]` as `drop (len - n)`), stated at the drop level. -/
theorem drop_sub_append {α : Type} (l : List α) (x : α) (n : Nat) (hn : 1 ≤ n) :
    (l.drop (l.length - n) ++ [x]).drop ((l.drop (l.length - n) ++ [x]).length - n) =
      (l ++ [x]).drop ((l ++ [x]).length - n) := by
  by_cases hc : l.length ≤ n
  · have h1 : l.length - n = 0 := by omega
    rw [h1, List.drop_zero]
  · push_neg at hc
    have hlen : (l.drop (l.length - n)).length = n := by
      rw [List.length_drop]
      omega
    have h2 : (l.drop (l.length - n) ++ [x]).length - n = 1 := by
      rw [List.length_append, hlen]
      simp
    have h3 : (l ++ [x]).length - n = l.length + 1 - n := by
      rw [List.length_append]
      simp
    rw [h2, h3]
    rw [List.drop_append_eq_append_drop, List.drop_append_eq_append_drop]
    rw [List.drop_drop, hlen]
    have h4 : l.length - n + 1 = l.length + 1 - n := by omega
    have h5 : 1 - n = 0 := by omega
    have h6 : l.length + 1 - n - l.length = 0 := by omega
    rw [h4, h5, h6]

/-- The file state after one successful record, at the parsed level. -/
theorem parse_recordLine (ls : List String) (x : Nat) :
    parseSpeeds (recordLine ls x) =
      (parseSpeeds ls ++ [x]).drop ((parseSpeeds ls ++ [x]).length - MAX_SPEEDS) := by
  show parseSpeeds
      (((parseSpeeds ls ++ [x]).drop
        ((parseSpeeds ls ++ [x]).length - MAX_SPEEDS)).map natToLine) = _
  exact parseSpeeds_map_natToLine _

/-- C3: after any sequence of `save_last_speed` calls starting from the
empty store, the persisted history is exactly the last `min(10, N)`
recorded samples in insertion order; it never exceeds `MAX_SPEEDS = 10`
entries, the oldest being evicted first. -/
theorem speed_history_last_ten (xs : List Nat) :
    parseSpeeds (recordFold xs) = xs.drop (xs.length - MAX_SPEEDS) ∧
    (parseSpeeds (recordFold xs)).length = min MAX_SPEEDS xs.length ∧
    (parseSpeeds (recordFold xs)).length ≤ MAX_SPEEDS := by
  have main : parseSpeeds (recordFold xs) = xs.drop (xs.length - MAX_SPEEDS) := by
    induction xs using List.reverseRecOn with
    | nil => rfl
    | append_singleton ys x ih =>
      have hstep : recordFold (ys ++ [x]) = recordLine (recordFold ys) x := by
        unfold recordFold
        rw [List.foldl_append]
        rfl
      rw [hstep, parse_recordLine, ih]
      exact drop_sub_append ys x MAX_SPEEDS (by norm_num [MAX_SPEEDS])
  refine ⟨main, ?_, ?_⟩ <;> rw [main, List.length_drop] <;> omega

/-- A scanned stream in bucket `h'` updates that bucket's candidate
exactly as the one-bucket step `selStep` does. -/
theorem scanFormat_best_step (d : Option ℚ) (st : ScanState) (f : FormatInfo) (h' : Nat)
    (hv : ¬f.vcodec = some "none") (hht : f.height = some h')
    (hmem : h' ∈ targetHeights) :
    (scanFormat d st f).best_formats h' = selStep d (st.best_formats h') f := by
  simp only [scanFormat, hv, hht, if_false, hmem, if_true, ite_false, ite_true]
  cases hb : st.best_formats h' with
  | none => simp [selStep, hb, Function.update_same]
  | some bf =>
    by_cases hfps : bf.fps < fpsOf f <;>
      simp [selStep, hb, hfps, Function.update_same]

/-- A scanned stream in bucket `h'` appends exactly its resolvable size
estimate to that bucket's estimate list. -/
theorem scanFormat_sizes_step (d : Option ℚ) (st : ScanState) (f : FormatInfo) (h' : Nat)
    (hv : ¬f.vcodec = some "none") (hht : f.height = some h')
    (hmem : h' ∈ targetHeights) :
    (scanFormat d st f).size_estimates h' =
      st.size_estimates h' ++ (estimate_size f d).toList := by
  simp only [scanFormat, hv, hht, if_false, hmem, if_true, ite_false, ite_true]
  cases he : estimate_size f d <;> simp [he, Function.update_same]

/-- A scanned stream leaves every other bucket of the state unchanged. -/
theorem scanFormat_other (d : Option ℚ) (st : ScanState) (f : FormatInfo) (h : Nat)
    (hdiff : ∀ h', f.height = some h' → h' ≠ h) :
    (scanFormat d st f).best_formats h = st.best_formats h ∧
    (scanFormat d st f).size_estimates h = st.size_estimates h := by
  by_cases hv : f.vcodec = some "none"
  · simp [scanFormat, hv]
  · cases hht : f.height with
    | none => simp [scanFormat, hv, hht]
    | some h' =>
      have hne : h ≠ h' := fun e => hdiff h' hht e.symm
      by_cases hmem : h' ∈ targetHeights
      · simp only [scanFormat, hv, hht, if_false, hmem, if_true, ite_false, ite_true]
        constructor
        · cases hb : st.best_formats h' with
          | none => simp [Function.update_noteq hne]
          | some bf =>
            by_cases hfps : bf.fps < fpsOf f <;>
              simp [hb, hfps, Function.update_noteq hne]
        · cases he : estimate_size f d <;> simp [he, Function.update_noteq hne]
      · simp [scanFormat, hv, hht, hmem]

/-- The scanning loop, projected to one target bucket, is the one-bucket
fold over that bucket's matching streams, and the bucket's estimate list
is the matching streams' resolvable estimates in order. -/
theorem scan_proj_aux (d : Option ℚ) (h : Nat) (hh : h ∈ targetHeights)
    (formats : List FormatInfo) :
    ∀ st : ScanState,
      (formats.foldl (scanFormat d) st).best_formats h =
        (matchingStreams formats h).foldl (selStep d) (st.best_formats h) ∧
      (formats.foldl (scanFormat d) st).size_estimates h =
        st.size_estimates h ++
          (matchingStreams formats h).filterMap (fun f => estimate_size f d) := by
  induction formats with
  | nil => intro st; simp [matchingStreams]
  | cons f fs ih =>
    intro st
    simp only [List.foldl_cons]
    by_cases hv : f.vcodec = some "none"
    · have hm : matchingStreams (f :: fs) h = matchingStreams fs h := by
        simp [matchingStreams, List.filter_cons, hv]
      have hscan : scanFormat d st f = st := by simp [scanFormat, hv]
      rw [hm, hscan]
      exact ih st
    · cases hht : f.height with
      | none =>
        have hm : matchingStreams (f :: fs) h = matchingStreams fs h := by
          simp [matchingStreams, List.filter_cons, hht]
        have hscan : scanFormat d st f = st := by simp [scanFormat, hv, hht]
        rw [hm, hscan]
        exact ih st
      | some h' =>
        by_cases heq : h' = h
        · subst heq
          have hm : matchingStreams (f :: fs) h' = f :: matchingStreams fs h' := by
            simp [matchingStreams, List.filter_cons, hv, hht]
          rw [hm]
          obtain ⟨ihb, ihs⟩ := ih (scanFormat d st f)
          constructor
          · rw [ihb, List.foldl_cons,
              scanFormat_best_step d st f h' hv hht hh]
          · rw [ihs, scanFormat_sizes_step d st f h' hv hht hh,
              List.filterMap_cons]
            cases he : estimate_size f d <;> simp [he]
        · have hm : matchingStreams (f :: fs) h = matchingStreams fs h := by
            simp only [matchingStreams, List.filter_cons]
            have : ¬(f.vcodec ≠ some "none" ∧ f.height = some h) := by
              rintro ⟨-, hcon⟩
              rw [hht] at hcon
              exact heq (Option.some_inj.mp hcon)
            simp [this]
          obtain ⟨hb, hs⟩ :=
            scanFormat_other d st f h (fun g hg => by
              rw [hht] at hg
              exact (Option.some_inj.mp hg) ▸ heq)
          obtain ⟨ihb, ihs⟩ := ih (scanFormat d st f)
          rw [hm]
          constructor
          · rw [ihb, hb]
          · rw [ihs, hs]

/-- Projection of the whole scan to one target bucket. -/
theorem scan_proj (formats : List FormatInfo) (d : Option ℚ) (h : Nat)
    (hh : h ∈ targetHeights) :
    (scanFormats formats d).best_formats h = selectBest d (matchingStreams formats h) ∧
    (scanFormats formats d).size_estimates h =
      (matchingStreams formats h).filterMap (fun f => estimate_size f d) := by
  obtain ⟨hb, hs⟩ := scan_proj_aux d h hh formats initScan
  exact ⟨hb, by simpa [initScan] using hs⟩

/-- The one-bucket fold from a present accumulator: the result exists,
comes from the accumulator or the list, and maximizes fps. -/
theorem selectBest_from (d : Option ℚ) (l : List FormatInfo) :
    ∀ c0 : Cand, ∃ c, l.foldl (selStep d) (some c0) = some c ∧
      (c = c0 ∨ ∃ f ∈ l, c = mkCand f (estimate_size f d)) ∧
      c0.fps ≤ c.fps ∧ ∀ g ∈ l, fpsOf g ≤ c.fps := by
  induction l with
  | nil => exact fun c0 => ⟨c0, rfl, Or.inl rfl, le_refl _, by simp⟩
  | cons f fs ih =>
    intro c0
    simp only [List.foldl_cons]
    by_cases hfps : c0.fps < fpsOf f
    · have hsel : selStep d (some c0) f = some (mkCand f (estimate_size f d)) := by
        simp [selStep, hfps]
      rw [hsel]
      obtain ⟨c, hc, hor, hle, hall⟩ := ih (mkCand f (estimate_size f d))
      have hlef : fpsOf f ≤ c.fps := by simpa [mkCand] using hle
      refine ⟨c, hc, ?_, le_trans (le_of_lt hfps) hlef, ?_⟩
      · rcases hor with rfl | ⟨g, hg, rfl⟩
        · exact Or.inr ⟨f, List.mem_cons_self _ _, rfl⟩
        · exact Or.inr ⟨g, List.mem_cons_of_mem _ hg, rfl⟩
      · intro g hg
        rcases List.mem_cons.mp hg with rfl | hg
        · exact hlef
        · exact hall g hg
    · have hsel : selStep d (some c0) f = some c0 := by simp [selStep, hfps]
      rw [hsel]
      obtain ⟨c, hc, hor, hle, hall⟩ := ih c0
      refine ⟨c, hc, ?_, hle, ?_⟩
      · rcases hor with rfl | ⟨g, hg, rfl⟩
        · exact Or.inl rfl
        · exact Or.inr ⟨g, List.mem_cons_of_mem _ hg, rfl⟩
      · intro g hg
        rcases List.mem_cons.mp hg with rfl | hg
        · exact le_trans (not_lt.mp hfps) hle
        · exact hall g hg

/-- On a non-empty bucket, `selectBest` is a candidate built from one of
the bucket's streams and carrying the maximal fps among them. -/
theorem selectBest_spec (d : Option ℚ) (l : List FormatInfo) (hl : l ≠ []) :
    ∃ c, selectBest d l = some c ∧
      (∃ f ∈ l, c.format_id = f.format_id ∧ c.fps = fpsOf f ∧ c.vcodec = f.vcodec) ∧
      ∀ g ∈ l, fpsOf g ≤ c.fps := by
  cases l with
  | nil => exact absurd rfl hl
  | cons f fs =>
    unfold selectBest
    simp only [List.foldl_cons]
    have hsel : selStep d none f = some (mkCand f (estimate_size f d)) := rfl
    rw [hsel]
    obtain ⟨c, hc, hor, hle, hall⟩ := selectBest_from d fs (mkCand f (estimate_size f d))
    refine ⟨c, hc, ?_, ?_⟩
    · rcases hor with rfl | ⟨g, hg, rfl⟩
      · exact ⟨f, List.mem_cons_self _ _, rfl, rfl, rfl⟩
      · exact ⟨g, List.mem_cons_of_mem _ hg, rfl, rfl, rfl⟩
    · intro g hg
      rcases List.mem_cons.mp hg with rfl | hg
      · simpa [mkCand] using hle
      · exact hall g hg

/-- C1: for every target bucket with at least one matching video stream,
the selectable candidate is built from a matching stream of maximal frame
rate, and when the bucket has resolvable size estimates the candidate's
recorded size is their arithmetic mean (not the chosen stream's own
estimate). -/
theorem pick_video_format_bucket (formats : List FormatInfo) (duration_sec : Option ℚ)
    (h : Nat) (hh : h ∈ targetHeights)
    (hne : matchingStreams formats h ≠ []) :
    ∃ c, bucketCand formats duration_sec h = some c ∧
      (∃ f ∈ matchingStreams formats h,
        c.format_id = f.format_id ∧ c.fps = fpsOf f ∧ c.vcodec = f.vcodec) ∧
      (∀ g ∈ matchingStreams formats h, fpsOf g ≤ c.fps) ∧
      ((matchingStreams formats h).filterMap (fun f => estimate_size f duration_sec) ≠ [] →
        c.filesize = some
          (((matchingStreams formats h).filterMap
              (fun f => estimate_size f duration_sec)).sum /
            ((matchingStreams formats h).filterMap
              (fun f => estimate_size f duration_sec)).length)) := by
  obtain ⟨hb, hs⟩ := scan_proj formats duration_sec h hh
  obtain ⟨c', hc', hfrom, hmax⟩ := selectBest_spec duration_sec _ hne
  simp only [bucketCand]
  rw [hb, hc', hs]
  cases hes : (matchingStreams formats h).filterMap (fun f => estimate_size f duration_sec) with
  | nil =>
    exact ⟨c', rfl, hfrom, hmax, fun hcon => absurd rfl hcon⟩
  | cons e es =>
    refine ⟨{ c' with filesize := some ((e :: es).sum / (e :: es).length) }, rfl, ?_, ?_, ?_⟩
    · obtain ⟨f, hf, h1, h2, h3⟩ := hfrom
      exact ⟨f, hf, h1, h2, h3⟩
    · exact hmax
    · intro _
      rfl

/-- Witness for `pick_video_format_bucket` at the specification's 1080p
example bucket. -/
theorem pick_video_format_bucket_witness :
    ∃ c, bucketCand exampleFormats (some 72) 1080 = some c ∧
      (∃ f ∈ matchingStreams exampleFormats 1080,
        c.format_id = f.format_id ∧ c.fps = fpsOf f ∧ c.vcodec = f.vcodec) ∧
      (∀ g ∈ matchingStreams exampleFormats 1080, fpsOf g ≤ c.fps) ∧
      ((matchingStreams exampleFormats 1080).filterMap
          (fun f => estimate_size f (some 72)) ≠ [] →
        c.filesize = some
          (((matchingStreams exampleFormats 1080).filterMap
              (fun f => estimate_size f (some 72))).sum /
            ((matchingStreams exampleFormats 1080).filterMap
              (fun f => estimate_size f (some 72))).length)) :=
  pick_video_format_bucket exampleFormats (some 72) 1080 (by decide)
    (by simp [exampleFormats, matchingStreams])

end YtDownload
